import Mathlib

/-!
Verification of the `nya-compute-subnet` miner (`src/miner.py`) against its
natural-language specification, via a shallow embedding in Lean 4.

The file embeds, from the source:
* the bootstrap argument handling of `main` (port check, subnetuid / testnet
  selection), where argparse delivers every supplied flag as a string and the
  recorded defaults keep their Python types (int 9910 for the port, int 23 for
  the subnetuid) — modelled by the `PyVal` type with Python equality `pyEq`;
* the device selection of `NyaComputeMiner.__init__`;
* the `compute` endpoint: chunking in fixed batches of 64, tokenisation
  (abstract, padding to a fixed maximal length), the keyword-argument
  dictionary built at line 90 that maps every tokenizer key to the stacked
  `input_ids`, the forward pass (abstract model function), `torch.topk` with
  k = 16 on the last dimension, concatenation along dimension 0, and the final
  casts to half floats (abstract elementwise map) and to 16-bit integers
  (concrete wrap-around `toInt16`).

Tensors are nested lists; logit scores are integers (their numeric type is
irrelevant to the claims, only their ordering is used); the two
`time.perf_counter` readings are explicit integer inputs of `compute`.
-/

namespace Miner

/-- Python values relevant to argparse handling: an argument supplied on the
command line arrives as a string, while an absent argument keeps the default
recorded in `add_argument`, which in `miner.py` is an int for both `--port`
(9910) and `--subnetuid` (23). -/
inductive PyVal where
  | int (n : Int) : PyVal
  | str (s : String) : PyVal
deriving DecidableEq, Repr

/-- Python `==` on the embedded values: an int never equals a string. -/
def pyEq : PyVal → PyVal → Bool
  | PyVal.int a, PyVal.int b => a == b
  | PyVal.str a, PyVal.str b => a == b
  | _, _ => false

/-- The value of `args.port` in `main`: the default int 9910 when the flag is
absent, otherwise the supplied command-line string. -/
def argPort : Option String → PyVal
  | none => PyVal.int 9910
  | some s => PyVal.str s

/-- The value of `args.subnetuid` in `main`: the default int 23 when the flag
is absent, otherwise the supplied command-line string. -/
def argSubnetuid : Option String → PyVal
  | none => PyVal.int 23
  | some s => PyVal.str s

/-- Python `str.isdigit` restricted to the ASCII strings that occur as
command-line arguments here: true when the string is non-empty and every
character is a decimal digit. -/
def pyIsDigit (s : String) : Bool :=
  !s.toList.isEmpty && s.toList.all Char.isDigit

/-- Python `int(s)` on a decimal digit string. -/
def pyIntOfDigits (s : String) : Int :=
  Int.ofNat (s.toList.foldl (fun n c => 10 * n + (c.toNat - 48)) 0)

/-- Whether Python `int(s)` succeeds on a string: an optional sign followed
by a non-empty run of decimal digits.  This is the reading of the
specification phrase "parses as an integer"; it is not part of the source,
which tests `str.isdigit` instead.  (Python additionally tolerates
surrounding whitespace and underscore separators; omitting them only makes
this predicate narrower, which weakens no statement proved with it.) -/
def pyParsesAsInt (s : String) : Bool :=
  match s.toList with
  | [] => false
  | c :: cs =>
      if c == '-' || c == '+' then !cs.isEmpty && cs.all Char.isDigit
      else (c :: cs).all Char.isDigit

/-- Lines 143-149 of `miner.py`: `port = args.port`; if `port` is a string and
`port.isdigit()` then `port = int(port)`, else log and raise `ValueError`.
The int default 9910 is not a string, so it takes the error branch. -/
def mainPortCheck : PyVal → Except String Int
  | PyVal.str s =>
      if pyIsDigit s then Except.ok (pyIntOfDigits s)
      else Except.error "Port must be an integer."
  | PyVal.int _ => Except.error "Port must be an integer."

/-- Line 170 of `miner.py`: `use_testnet = args.subnetuid == 23`. -/
def use_testnet (subnetuid : PyVal) : Bool :=
  pyEq subnetuid (PyVal.int 23)

/-- Lines 46-52 of `miner.py`: if the requested device is "cuda" and CUDA is
unavailable, raise `ValueError`; otherwise `self.device` is "cuda" exactly
when CUDA is available and "cpu" otherwise, regardless of the request. -/
def initDevice (device : String) (cudaAvailable : Bool) : Except String String :=
  if device = "cuda" && !cudaAvailable then
    Except.error "CUDA is not available."
  else
    Except.ok (if cudaAvailable then "cuda" else "cpu")

/-- The handler state built by `NyaComputeMiner.__init__`.  The tokenizer and
the model are external pretrained artefacts; they enter the embedding as
abstract functions.  `tokKeys` is the list of field names the tokenizer
returns (for this model: `input_ids` and `attention_mask`), `tokField k t` the
row the tokenizer produces for key `k` on input text `t` (padded/truncated to
a fixed maximal length), `forward` the model applied to a keyword-argument
dictionary of stacked tensors, `halfRound` the elementwise effect of the cast
`.to(torch.float16)` on a logit score, and `vocabSize` the size of the
model's vocabulary (the extent of the last logits dimension).  `batch_size`
and `device` are the attributes stored by `__init__`. -/
structure NyaComputeMiner where
  tokKeys : List String
  tokField : String → String → List Nat
  forward : List (String × List (List Nat)) → List (List (List Int))
  halfRound : Int → Int
  vocabSize : Nat
  batch_size : Nat
  device : String

/-- Splitting a list into consecutive chunks of `n` elements (the last chunk
may be shorter).  This is the common chunking of `Dataset.map` with
`batch_size=64` and of `DataLoader` with `batch_size=64`: both walk the rows
in order in groups of 64, so the loader's batches are exactly the 64-chunks
of the encoded rows. -/
def chunksOfAux (n : Nat) : Nat → List α → List (List α)
  | _, [] => []
  | 0, _ :: _ => []
  | fuel + 1, x :: rest => (x :: rest).take n :: chunksOfAux n fuel ((x :: rest).drop n)

/-- Chunking proper: when `n` is positive, each step consumes at least one
element, so a fuel of `xs.length` always suffices. -/
def chunksOf (n : Nat) (xs : List α) : List (List α) :=
  if n = 0 then [] else chunksOfAux n xs.length xs

/-- Lines 57-61 and 73-77 of `miner.py`: the tokenizer applied to a batch of
texts returns a dictionary mapping each tokenizer key to the column of
per-text rows.  With `padding="max_length"` the tokenisation of a batch is
row-independent, so mapping the dataset in 64-batches and re-reading it in
64-batches yields, for each 64-chunk of the task, exactly this dictionary. -/
def batch_encode (m : NyaComputeMiner) (chunk : List String) :
    List (String × List (List Nat)) :=
  m.tokKeys.map fun k => (k, chunk.map (m.tokField k))

/-- The tensor `torch.stack(batch["input_ids"], dim=1)` of line 90: the
DataLoader collates a column as a list over token positions of per-example
values, and stacking on dimension 1 rebuilds the row-major matrix of the
chunk's `input_ids`. -/
def stackedInputIds (batch : List (String × List (List Nat))) : List (List Nat) :=
  (batch.lookup "input_ids").getD []

/-- The dictionary comprehension of line 90:
`{k: torch.stack(batch["input_ids"], dim=1).to(self.device) for k, v in batch.items()}`.
Every key of the loader batch — `attention_mask` included — is bound to the
same stacked `input_ids` tensor. -/
def remapBatch (batch : List (String × List (List Nat))) :
    List (String × List (List Nat)) :=
  batch.map fun kv => (kv.1, stackedInputIds batch)

/-- Lines 88-95: the forward pass on one loader batch, fed the remapped
keyword arguments. -/
def modelBatch (m : NyaComputeMiner) (chunk : List String) :
    List (List (List Int)) :=
  m.forward (remapBatch (batch_encode m chunk))

/-- Line 97, `torch.topk(output.logits, 16, dim=-1)` on one innermost row:
the scores paired with their positions, sorted by score in descending order
(ties resolved by the sort), truncated to the 16 largest. -/
def topkPairs (k : Nat) (row : List Int) : List (Int × Nat) :=
  (List.insertionSort (fun a b => b.1 ≤ a.1) (row.zip (List.range row.length))).take k

/-- The values component of `torch.topk` with k = 16. -/
def topkVals (row : List Int) : List Int :=
  (topkPairs 16 row).map Prod.fst

/-- The indices component of `torch.topk` with k = 16. -/
def topkIdxs (row : List Int) : List Nat :=
  (topkPairs 16 row).map Prod.snd

/-- The elementwise effect of the cast `.to(torch.int16)` of line 103:
wrap-around into the interval [-32768, 32767]. -/
def toInt16 (n : Int) : Int :=
  (n + 32768) % 65536 - 32768

/-- The record returned by `compute`:`elapsed_time` and the two nested
arrays, after their casts. -/
structure ComputeResult where
  elapsed_time : Int
  logit : List (List (List Int))
  logit_index : List (List (List Int))
deriving DecidableEq, Repr

/-- Lines 63-123, `NyaComputeMiner.compute`.  The task is chunked in fixed
batches of 64 (the literal batch sizes of `Dataset.map` and `DataLoader`);
each chunk is encoded, remapped by the line-90 comprehension, run through the
model, reduced by `torch.topk(·, 16, dim=-1)`; the per-batch results are
concatenated along dimension 0 (`torch.cat`, embedded as `List.flatten`) and
cast (`float16` abstractly via `halfRound`, `int16` concretely via `toInt16`).
The two `time.perf_counter` readings are explicit inputs `startTime` and
`endTime`; `elapsed_time` is their difference. -/
def compute (m : NyaComputeMiner) (startTime endTime : Int) (task : List String) :
    ComputeResult :=
  let batches := chunksOf 64 task
  let outs := batches.map fun c => modelBatch m c
  let logit_list := outs.map fun o => o.map fun seq => seq.map topkVals
  let logit_index_list := outs.map fun o => o.map fun seq => seq.map topkIdxs
  let logit := logit_list.flatten.map fun seq => seq.map fun r => r.map m.halfRound
  let logit_index := logit_index_list.flatten.map fun seq =>
    seq.map fun r => r.map fun i => toInt16 (Int.ofNat i)
  { elapsed_time := endTime - startTime
    logit := logit
    logit_index := logit_index }

/-- State-passing form of the `compute` method: the returned handler is the
handler after the method body has run.  The body (lines 63-123) contains no
assignment to any attribute of `self`, so the post-state is the pre-state. -/
def computeS (m : NyaComputeMiner) (startTime endTime : Int) (task : List String) :
    ComputeResult × NyaComputeMiner :=
  (compute m startTime endTime task, m)

/-- The shape of a three-dimensional nested list: per outer element, the list
of lengths of its rows. -/
def shape3 (x : List (List (List Int))) : List (List Nat) :=
  x.map fun seq => seq.map List.length

theorem chunksOfAux_flatten {α : Type} (n : Nat) (hn : n ≠ 0) (fuel : Nat)
    (xs : List α) (hf : xs.length ≤ fuel) :
    (chunksOfAux n fuel xs).flatten = xs := by
  induction fuel generalizing xs with
  | zero =>
    match xs with
    | [] => rfl
    | x :: rest => simp at hf
  | succ fuel ih =>
    match xs with
    | [] => rfl
    | x :: rest =>
      simp only [chunksOfAux, List.flatten_cons]
      simp only [List.length_cons] at hf
      rw [ih ((x :: rest).drop n)
        (by simp only [List.length_drop, List.length_cons]; omega)]
      exact List.take_append_drop n (x :: rest)

theorem chunksOf_flatten {α : Type} (n : Nat) (hn : n ≠ 0) (xs : List α) :
    (chunksOf n xs).flatten = xs := by
  unfold chunksOf
  rw [if_neg hn]
  exact chunksOfAux_flatten n hn xs.length xs (Nat.le_refl _)

theorem lookup_map_const {β γ : Type} (c : γ) (k : String)
    (l : List (String × β)) (h : k ∈ l.map Prod.fst) :
    (l.map fun kv => (kv.1, c)).lookup k = some c := by
  induction l with
  | nil => simp at h
  | cons a rest ih =>
    by_cases hk : k = a.1
    · simp [List.lookup, hk]
    · have hr : k ∈ rest.map Prod.fst := by
        simp only [List.map_cons, List.mem_cons] at h
        exact h.resolve_left hk
      have hb : (k == a.1) = false := beq_eq_false_iff_ne.mpr hk
      simp [List.lookup, hb, ih hr]

theorem remapBatch_lookup (batch : List (String × List (List Nat))) (k : String)
    (h : k ∈ batch.map Prod.fst) :
    (remapBatch batch).lookup k = some (stackedInputIds batch) :=
  lookup_map_const (stackedInputIds batch) k batch h

theorem lookup_map_key {β : Type} (g : String → β) (k : String)
    (keys : List String) (h : k ∈ keys) :
    (keys.map fun x => (x, g x)).lookup k = some (g k) := by
  induction keys with
  | nil => simp at h
  | cons a rest ih =>
    by_cases hk : k = a
    · simp [List.lookup, hk]
    · have hr : k ∈ rest := (List.mem_cons.mp h).resolve_left hk
      have hb : (k == a) = false := beq_eq_false_iff_ne.mpr hk
      simp [List.lookup, hb, ih hr]

theorem batch_encode_keys (m : NyaComputeMiner) (chunk : List String) :
    (batch_encode m chunk).map Prod.fst = m.tokKeys := by
  simp [batch_encode, Function.comp_def]

theorem stackedInputIds_batch_encode (m : NyaComputeMiner) (chunk : List String)
    (h : "input_ids" ∈ m.tokKeys) :
    stackedInputIds (batch_encode m chunk) = chunk.map (m.tokField "input_ids") := by
  unfold stackedInputIds batch_encode
  rw [lookup_map_key (fun k => chunk.map (m.tokField k)) "input_ids" m.tokKeys h]
  rfl

theorem length_topkPairs (k : Nat) (row : List Int) :
    (topkPairs k row).length = min k row.length := by
  unfold topkPairs
  rw [List.length_take, (List.perm_insertionSort _ _).length_eq, List.length_zip,
    List.length_range, Nat.min_self]

theorem length_topkIdxs (row : List Int) :
    (topkIdxs row).length = min 16 row.length := by
  rw [topkIdxs, List.length_map, length_topkPairs]

theorem length_topkVals (row : List Int) :
    (topkVals row).length = min 16 row.length := by
  rw [topkVals, List.length_map, length_topkPairs]

theorem topkIdxs_lt (row : List Int) (i : Nat) (h : i ∈ topkIdxs row) :
    i < row.length := by
  simp only [topkIdxs, topkPairs, List.mem_map] at h
  obtain ⟨p, hp, hpi⟩ := h
  have hms : p ∈ List.insertionSort (fun a b => b.1 ≤ a.1)
      (row.zip (List.range row.length)) :=
    List.mem_of_mem_take hp
  have hz : p ∈ row.zip (List.range row.length) :=
    (List.perm_insertionSort _ _).mem_iff.mp hms
  have := (List.of_mem_zip (by rwa [← Prod.mk.eta (p := p)] at hz)).2
  rw [List.mem_range] at this
  omega

theorem chunksOfAux_length_le {α : Type} (n fuel : Nat) (xs : List α) :
    ∀ c ∈ chunksOfAux n fuel xs, c.length ≤ n := by
  induction fuel generalizing xs with
  | zero =>
    intro c hc
    match xs with
    | [] => simp [chunksOfAux] at hc
    | x :: rest => simp [chunksOfAux] at hc
  | succ fuel ih =>
    intro c hc
    match xs with
    | [] => simp [chunksOfAux] at hc
    | x :: rest =>
      rcases List.mem_cons.mp hc with rfl | hc
      · exact List.length_take_le n (x :: rest)
      · exact ih ((x :: rest).drop n) c hc

theorem chunksOf_length_le {α : Type} (n : Nat) (xs : List α) :
    ∀ c ∈ chunksOf n xs, c.length ≤ n := by
  intro c hc
  unfold chunksOf at hc
  by_cases hn : n = 0
  · rw [if_pos hn] at hc
    simp at hc
  · rw [if_neg hn] at hc
    exact chunksOfAux_length_le n xs.length xs c hc

theorem length_modelBatch (m : NyaComputeMiner) (c : List String)
    (hK : "input_ids" ∈ m.tokKeys)
    (hF : ∀ kw ids, kw.lookup "input_ids" = some ids →
        (m.forward kw).length = ids.length) :
    (modelBatch m c).length = c.length := by
  unfold modelBatch
  have hmem : "input_ids" ∈ (batch_encode m c).map Prod.fst := by
    rw [batch_encode_keys]
    exact hK
  have hlk := remapBatch_lookup (batch_encode m c) "input_ids" hmem
  rw [hF _ _ hlk, stackedInputIds_batch_encode m c hK, List.length_map]

theorem length_compute_logit (m : NyaComputeMiner) (startTime endTime : Int)
    (task : List String) (hK : "input_ids" ∈ m.tokKeys)
    (hF : ∀ kw ids, kw.lookup "input_ids" = some ids →
        (m.forward kw).length = ids.length) :
    (compute m startTime endTime task).logit.length = task.length := by
  simp only [compute, List.length_map, List.length_flatten, List.map_map]
  have h1 : ((chunksOf 64 task).map
      (List.length ∘ (fun o => o.map fun seq => seq.map topkVals) ∘ fun c => modelBatch m c))
      = (chunksOf 64 task).map List.length := by
    apply List.map_congr_left
    intro c _
    simp [length_modelBatch m c hK hF]
  rw [h1, ← List.length_flatten, chunksOf_flatten 64 (by norm_num)]

theorem length_compute_logit_index (m : NyaComputeMiner) (startTime endTime : Int)
    (task : List String) (hK : "input_ids" ∈ m.tokKeys)
    (hF : ∀ kw ids, kw.lookup "input_ids" = some ids →
        (m.forward kw).length = ids.length) :
    (compute m startTime endTime task).logit_index.length = task.length := by
  simp only [compute, List.length_map, List.length_flatten, List.map_map]
  have h1 : ((chunksOf 64 task).map
      (List.length ∘ (fun o => o.map fun seq => seq.map topkIdxs) ∘ fun c => modelBatch m c))
      = (chunksOf 64 task).map List.length := by
    apply List.map_congr_left
    intro c _
    simp [length_modelBatch m c hK hF]
  rw [h1, ← List.length_flatten, chunksOf_flatten 64 (by norm_num)]

theorem rows_compute_logit (m : NyaComputeMiner) (startTime endTime : Int)
    (task : List String)
    (hV : ∀ kw, ∀ seq ∈ m.forward kw, ∀ cell ∈ seq, 16 ≤ cell.length) :
    ∀ seq ∈ (compute m startTime endTime task).logit, ∀ row ∈ seq,
      row.length = 16 := by
  intro seq hseq row hrow
  have hcm : (compute m startTime endTime task).logit
      = (((chunksOf 64 task).map fun c => modelBatch m c).map
          (fun o => o.map fun s => s.map topkVals)).flatten.map
            (fun s => s.map fun r => r.map m.halfRound) := rfl
  rw [hcm] at hseq
  obtain ⟨seq0, hseq0, rfl⟩ := List.mem_map.mp hseq
  obtain ⟨o, ho, hseq0m⟩ := List.mem_flatten.mp hseq0
  obtain ⟨o1, ho1, rfl⟩ := List.mem_map.mp ho
  obtain ⟨c, _, rfl⟩ := List.mem_map.mp ho1
  obtain ⟨seq1, hseq1, rfl⟩ := List.mem_map.mp hseq0m
  obtain ⟨r1, hr1, rfl⟩ := List.mem_map.mp hrow
  obtain ⟨cell, hcell, rfl⟩ := List.mem_map.mp hr1
  have h16 := hV _ _ hseq1 _ hcell
  simp [length_topkVals, Nat.min_eq_left h16]

theorem rows_compute_logit_index (m : NyaComputeMiner) (startTime endTime : Int)
    (task : List String)
    (hV : ∀ kw, ∀ seq ∈ m.forward kw, ∀ cell ∈ seq, 16 ≤ cell.length) :
    ∀ seq ∈ (compute m startTime endTime task).logit_index, ∀ row ∈ seq,
      row.length = 16 := by
  intro seq hseq row hrow
  have hcm : (compute m startTime endTime task).logit_index
      = (((chunksOf 64 task).map fun c => modelBatch m c).map
          (fun o => o.map fun s => s.map topkIdxs)).flatten.map
            (fun s => s.map fun r => r.map fun i => toInt16 (Int.ofNat i)) := rfl
  rw [hcm] at hseq
  obtain ⟨seq0, hseq0, rfl⟩ := List.mem_map.mp hseq
  obtain ⟨o, ho, hseq0m⟩ := List.mem_flatten.mp hseq0
  obtain ⟨o1, ho1, rfl⟩ := List.mem_map.mp ho
  obtain ⟨c, _, rfl⟩ := List.mem_map.mp ho1
  obtain ⟨seq1, hseq1, rfl⟩ := List.mem_map.mp hseq0m
  obtain ⟨r1, hr1, rfl⟩ := List.mem_map.mp hrow
  obtain ⟨cell, hcell, rfl⟩ := List.mem_map.mp hr1
  have h16 := hV _ _ hseq1 _ hcell
  simp [length_topkIdxs, Nat.min_eq_left h16]

theorem shape3_compute_eq (m : NyaComputeMiner) (startTime endTime : Int)
    (task : List String) :
    shape3 (compute m startTime endTime task).logit
      = shape3 (compute m startTime endTime task).logit_index := by
  simp only [compute, shape3, List.map_flatten, List.map_map, Function.comp_def,
    List.length_map, length_topkVals, length_topkIdxs]

theorem toInt16_of_small (i : Nat) (h : i < 32768) :
    toInt16 (Int.ofNat i) = Int.ofNat i := by
  simp only [toInt16, Int.ofNat_eq_coe]
  omega

theorem pyIsDigit_parses (s : String) (h : pyIsDigit s = true) :
    pyParsesAsInt s = true := by
  unfold pyIsDigit at h
  unfold pyParsesAsInt
  match hs : s.toList with
  | [] => rw [hs] at h; simp at h
  | c :: cs =>
    rw [hs] at h
    simp only [List.isEmpty_cons, Bool.not_false, Bool.true_and, List.all_cons,
      Bool.and_eq_true] at h
    obtain ⟨hc, hcs⟩ := h
    have h1 : (c == '-') = false := by
      cases hb : c == '-'
      · rfl
      · rw [beq_iff_eq] at hb
        subst hb
        simp at hc
    have h2 : (c == '+') = false := by
      cases hb : c == '+'
      · rfl
      · rw [beq_iff_eq] at hb
        subst hb
        simp at hc
    simp [h1, h2, hc, hcs]

/-- A concrete toy instantiation of the external artefacts (tokenizer and
model), used to discharge the hypotheses of the theorems at concrete inputs:
the tokenizer produces the two keys the real one produces and rows of length
2; the model maps each input row to one position over a 16-entry
vocabulary whose scores are 0..15. -/
def demoMiner : NyaComputeMiner where
  tokKeys := ["input_ids", "attention_mask"]
  tokField := fun _ _ => [0, 0]
  forward := fun kw =>
    ((kw.lookup "input_ids").getD []).map fun _ => [(List.range 16).map Int.ofNat]
  halfRound := fun n => n
  vocabSize := 16
  batch_size := 64
  device := "cpu"

theorem demoMiner_hF : ∀ kw ids, kw.lookup "input_ids" = some ids →
    (demoMiner.forward kw).length = ids.length := by
  intro kw ids h
  simp [demoMiner, h]

theorem demoMiner_hVe : ∀ kw, ∀ seq ∈ demoMiner.forward kw, ∀ cell ∈ seq,
    cell.length = demoMiner.vocabSize := by
  intro kw seq hs cell hc
  simp only [demoMiner, List.mem_map] at hs
  obtain ⟨r, -, rfl⟩ := hs
  rw [List.mem_singleton.mp hc]
  simp [demoMiner]

theorem demoMiner_hV : ∀ kw, ∀ seq ∈ demoMiner.forward kw, ∀ cell ∈ seq,
    16 ≤ cell.length := by
  intro kw seq hs cell hc
  rw [demoMiner_hVe kw seq hs cell hc]
  simp [demoMiner]

/-!
Claim theorems.
-/

/-- Claim C1: for every non-empty input list of strings given to `compute`,
the returned `logit` and `logit_index` have outer dimension equal to the
input list length, innermost dimension 16, and identical shapes.  The
external model enters through the hypotheses: the forward pass preserves the
batch dimension of its `input_ids` argument, and its innermost (vocabulary)
dimension has at least 16 entries. -/
theorem C1_result_shapes (m : NyaComputeMiner) (startTime endTime : Int)
    (task : List String) (_hT : task ≠ [])
    (hK : "input_ids" ∈ m.tokKeys)
    (hF : ∀ kw ids, kw.lookup "input_ids" = some ids →
        (m.forward kw).length = ids.length)
    (hV : ∀ kw, ∀ seq ∈ m.forward kw, ∀ cell ∈ seq, 16 ≤ cell.length) :
    (compute m startTime endTime task).logit.length = task.length ∧
    (compute m startTime endTime task).logit_index.length = task.length ∧
    (∀ seq ∈ (compute m startTime endTime task).logit, ∀ row ∈ seq,
        row.length = 16) ∧
    (∀ seq ∈ (compute m startTime endTime task).logit_index, ∀ row ∈ seq,
        row.length = 16) ∧
    shape3 (compute m startTime endTime task).logit
      = shape3 (compute m startTime endTime task).logit_index :=
  ⟨length_compute_logit m startTime endTime task hK hF,
   length_compute_logit_index m startTime endTime task hK hF,
   rows_compute_logit m startTime endTime task hV,
   rows_compute_logit_index m startTime endTime task hV,
   shape3_compute_eq m startTime endTime task⟩

/-- Witness for C1: the theorem applied to the toy instantiation on the
concrete two-string task. -/
theorem C1_result_shapes_witness :
    (compute demoMiner 0 5 ["a", "b"]).logit.length = 2 ∧
    (compute demoMiner 0 5 ["a", "b"]).logit_index.length = 2 ∧
    shape3 (compute demoMiner 0 5 ["a", "b"]).logit
      = shape3 (compute demoMiner 0 5 ["a", "b"]).logit_index := by
  have h := C1_result_shapes demoMiner 0 5 ["a", "b"] (by decide)
    (by decide) demoMiner_hF demoMiner_hV
  exact ⟨h.1, h.2.1, h.2.2.2.2⟩

/-- Claim C2, amended: a missing port argument aborts before serving (the
recorded default is the Python int 9910, which fails the isinstance-str
test), and a supplied argument that does not parse as an integer aborts; but
the guard the code applies to a supplied argument is `str.isdigit`, so a
supplied argument proceeds past the check exactly when it is a non-empty
string of decimal digits — a signed numeral such as "-5" parses as an
integer and still aborts. -/
theorem C2_port_check (arg : Option String) :
    (arg = none →
        mainPortCheck (argPort arg) = Except.error "Port must be an integer.") ∧
    (∀ s, arg = some s → pyParsesAsInt s = false →
        mainPortCheck (argPort arg) = Except.error "Port must be an integer.") ∧
    (∀ s, arg = some s → pyIsDigit s = true →
        mainPortCheck (argPort arg) = Except.ok (pyIntOfDigits s)) ∧
    (∀ s, arg = some s → pyIsDigit s = false →
        mainPortCheck (argPort arg) = Except.error "Port must be an integer.") := by
  refine ⟨?_, ?_, ?_, ?_⟩
  · intro h
    subst h
    rfl
  · intro s h hp
    subst h
    have hd : pyIsDigit s = false := by
      cases hd : pyIsDigit s
      · rfl
      · rw [pyIsDigit_parses s hd] at hp
        cases hp
    simp [mainPortCheck, argPort, hd]
  · intro s h hd
    subst h
    simp [mainPortCheck, argPort, hd]
  · intro s h hd
    subst h
    simp [mainPortCheck, argPort, hd]

/-- Witness for C2: the supplied digit-string port "80" passes the check. -/
theorem C2_port_check_witness :
    mainPortCheck (argPort (some "80")) = Except.ok (pyIntOfDigits "80") :=
  (C2_port_check (some "80")).2.2.1 "80" rfl (by decide)

/-- Counterexample for C2: the supplied port "-5" parses as an integer, yet
the bootstrap aborts at the port check, refuting the claim's converse
direction ("if the supplied port argument parses as an integer, the
bootstrap does not abort at the port check"). -/
theorem C2_counterexample :
    pyParsesAsInt "-5" = true ∧
    mainPortCheck (argPort (some "-5")) = Except.error "Port must be an integer." :=
  ⟨by decide, by rfl⟩

/-- Claim C3: the dictionary comprehension at line 90 binds every key of the
loader batch to the same stacked input_ids tensor; in particular, whenever
the tokenizer produced an attention_mask entry, the attention mask handed to
the forward pass is the stacked token ids, and the forward pass in compute
receives exactly this remapped dictionary. -/
theorem C3_kwargs_all_stacked_input_ids (batch : List (String × List (List Nat))) :
    (∀ kv ∈ remapBatch batch, kv.2 = stackedInputIds batch) ∧
    ("attention_mask" ∈ batch.map Prod.fst →
        (remapBatch batch).lookup "attention_mask" = some (stackedInputIds batch)) ∧
    (∀ (m : NyaComputeMiner) (c : List String),
        modelBatch m c = m.forward (remapBatch (batch_encode m c))) := by
  refine ⟨?_, ?_, ?_⟩
  · intro kv hkv
    obtain ⟨kv0, -, rfl⟩ := List.mem_map.mp hkv
    rfl
  · intro h
    exact remapBatch_lookup batch "attention_mask" h
  · intro m c
    rfl

/-- Witness for C3: on a concrete batch whose attention_mask column differs
from its input_ids column, the remapped dictionary maps attention_mask to
the input_ids. -/
theorem C3_kwargs_witness :
    (remapBatch [("input_ids", [[1, 2]]), ("attention_mask", [[1, 1]])]).lookup
      "attention_mask" = some [[1, 2]] := by
  have h := (C3_kwargs_all_stacked_input_ids
    [("input_ids", [[1, 2]]), ("attention_mask", [[1, 1]])]).2.1 (by decide)
  rw [h]
  rfl

/-- Claim C4, amended: the server is constructed with use_testnet true
exactly when the subnetuid flag is omitted, so that `args.subnetuid` is its
recorded default, the Python int 23; every value supplied on the command
line arrives as a string, and a string never equals the int 23 in Python, so
supplying 23 yields use_testnet false. -/
theorem C4_use_testnet (arg : Option String) :
    use_testnet (argSubnetuid arg) = true ↔ arg = none := by
  cases arg with
  | none => simp [use_testnet, argSubnetuid, pyEq]
  | some s => simp [use_testnet, argSubnetuid, pyEq]

/-- Counterexample for C4: passing the value 23 on the command line (which
argparse delivers as the string "23") does not select test network mode. -/
theorem C4_counterexample :
    use_testnet (argSubnetuid (some "23")) = false := by rfl

/-- Claim C5: requesting device "cuda" while CUDA is unavailable makes
construction fail with an error before any request is served, and a
construction that requested "cuda" never silently degrades: whenever it
succeeds, the selected device is "cuda". -/
theorem C5_cuda_required :
    initDevice "cuda" false = Except.error "CUDA is not available." ∧
    ∀ avail d, initDevice "cuda" avail = Except.ok d → d = "cuda" := by
  constructor
  · rfl
  · intro avail d h
    cases avail
    · simp [initDevice] at h
    · simp only [initDevice] at h
      simp at h
      exact h.symm

/-- Witness for C5: with CUDA available, construction succeeds and selects
"cuda". -/
theorem C5_cuda_required_witness :
    initDevice "cuda" true = Except.ok "cuda" ∧ ("cuda" : String) = "cuda" :=
  ⟨rfl, C5_cuda_required.2 true "cuda" rfl⟩

/-- Claim C6: for a fixed handler (a fixed model function, i.e. fixed
weights, and a fixed tokenizer) and a fixed task, the logit_index returned
by compute is identical across invocations: it does not depend on the
per-invocation clock readings, the only per-invocation environment inputs in
the embedding. -/
theorem C6_logit_index_deterministic (m : NyaComputeMiner)
    (s1 e1 s2 e2 : Int) (task : List String) :
    (compute m s1 e1 task).logit_index = (compute m s2 e2 task).logit_index := rfl

/-- Claim C7: every entry of the returned logit_index is a valid vocabulary
index — non-negative and strictly below the model's vocabulary size — where
the hypotheses record that the model's innermost dimension is the vocabulary
size and that the vocabulary size is at most 2^15; the entries inspected are
the ones after the int16 cast, so the bounds also hold after the cast. -/
theorem C7_valid_indices (m : NyaComputeMiner) (startTime endTime : Int)
    (task : List String) (_hT : task ≠ [])
    (hVe : ∀ kw, ∀ seq ∈ m.forward kw, ∀ cell ∈ seq, cell.length = m.vocabSize)
    (hvs : m.vocabSize ≤ 32768) :
    ∀ seq ∈ (compute m startTime endTime task).logit_index, ∀ row ∈ seq,
      ∀ v ∈ row, 0 ≤ v ∧ v < (m.vocabSize : Int) := by
  intro seq hseq row hrow v hv
  have hcm : (compute m startTime endTime task).logit_index
      = (((chunksOf 64 task).map fun c => modelBatch m c).map
          (fun o => o.map fun s => s.map topkIdxs)).flatten.map
            (fun s => s.map fun r => r.map fun i => toInt16 (Int.ofNat i)) := rfl
  rw [hcm] at hseq
  obtain ⟨seq0, hseq0, rfl⟩ := List.mem_map.mp hseq
  obtain ⟨o, ho, hseq0m⟩ := List.mem_flatten.mp hseq0
  obtain ⟨o1, ho1, rfl⟩ := List.mem_map.mp ho
  obtain ⟨c, -, rfl⟩ := List.mem_map.mp ho1
  obtain ⟨seq1, hseq1, rfl⟩ := List.mem_map.mp hseq0m
  obtain ⟨r1, hr1, rfl⟩ := List.mem_map.mp hrow
  obtain ⟨cell, hcell, rfl⟩ := List.mem_map.mp hr1
  obtain ⟨i, hi, rfl⟩ := List.mem_map.mp hv
  have hlt : i < cell.length := topkIdxs_lt cell i hi
  rw [hVe _ _ hseq1 _ hcell] at hlt
  rw [toInt16_of_small i (lt_of_lt_of_le hlt hvs)]
  constructor
  · exact Int.ofNat_nonneg i
  · rw [Int.ofNat_eq_coe]
    exact_mod_cast hlt

/-- Witness for C7: the largest index produced by the toy model on a
one-string task, 15, is non-negative and below the vocabulary size 16. -/
theorem C7_valid_indices_witness :
    (0 : Int) ≤ 15 ∧ (15 : Int) < (demoMiner.vocabSize : Int) := by
  have h := C7_valid_indices demoMiner 0 1 ["a"] (by decide) demoMiner_hVe (by decide)
  exact h [[15, 14, 13, 12, 11, 10, 9, 8, 7, 6, 5, 4, 3, 2, 1, 0]] (by decide)
    [15, 14, 13, 12, 11, 10, 9, 8, 7, 6, 5, 4, 3, 2, 1, 0] (by decide) 15 (by decide)

/-- Claim C8: compute never reads the batch_size attribute — two handlers
differing only in the batch_size constructor argument return identical
results on every task, the data being chunked in fixed batches of at most 64
elements. -/
theorem C8_batch_size_unused (m : NyaComputeMiner) (b1 b2 : Nat)
    (startTime endTime : Int) (task : List String) :
    compute { m with batch_size := b1 } startTime endTime task
      = compute { m with batch_size := b2 } startTime endTime task ∧
    ∀ c ∈ chunksOf 64 task, c.length ≤ 64 :=
  ⟨rfl, chunksOf_length_le 64 task⟩

/-- Witness for C8: two toy handlers with batch sizes 1 and 2 agree on a
concrete task whose single chunk has length at most 64. -/
theorem C8_batch_size_unused_witness :
    compute { demoMiner with batch_size := 1 } 0 0 ["a"]
      = compute { demoMiner with batch_size := 2 } 0 0 ["a"] ∧
    (["a"] : List String).length ≤ 64 :=
  ⟨(C8_batch_size_unused demoMiner 1 2 0 0 ["a"]).1,
   (C8_batch_size_unused demoMiner 1 2 0 0 ["a"]).2 ["a"] (by decide)⟩

/-- Claim C9: a call to compute leaves all handler state unchanged — the
handler after the call, and each of its fields (the model `forward` and
`halfRound` and `vocabSize`, the tokenizer `tokKeys` and `tokField`,
`batch_size`, `device`), equal their values before the call. -/
theorem C9_no_state_mutation (m : NyaComputeMiner) (startTime endTime : Int)
    (task : List String) :
    (computeS m startTime endTime task).2 = m ∧
    (computeS m startTime endTime task).2.forward = m.forward ∧
    (computeS m startTime endTime task).2.halfRound = m.halfRound ∧
    (computeS m startTime endTime task).2.vocabSize = m.vocabSize ∧
    (computeS m startTime endTime task).2.tokKeys = m.tokKeys ∧
    (computeS m startTime endTime task).2.tokField = m.tokField ∧
    (computeS m startTime endTime task).2.batch_size = m.batch_size ∧
    (computeS m startTime endTime task).2.device = m.device :=
  ⟨rfl, rfl, rfl, rfl, rfl, rfl, rfl, rfl⟩

/-- Claim C10: whenever construction succeeds, the selected device is "cuda"
exactly when CUDA is available and "cpu" otherwise — the requested device
never forces CPU; in particular, requesting "cpu" on a CUDA-capable machine
still selects "cuda". -/
theorem C10_device_ignores_request :
    (∀ dev avail d, initDevice dev avail = Except.ok d →
        d = if avail then "cuda" else "cpu") ∧
    initDevice "cpu" true = Except.ok "cuda" := by
  constructor
  · intro dev avail d h
    unfold initDevice at h
    split at h
    · simp at h
    · cases h
      rfl
  · rfl

/-- Witness for C10: requesting "cpu" with CUDA available succeeds and
selects "cuda". -/
theorem C10_device_ignores_request_witness :
    initDevice "cpu" true = Except.ok "cuda" ∧
    ("cuda" : String) = if true then "cuda" else "cpu" :=
  ⟨C10_device_ignores_request.2,
   C10_device_ignores_request.1 "cpu" true "cuda" rfl⟩

end Miner
